import Mathlib

/-!
Verification of the emotion-based movie recommender (`src/code.py`) against its
natural-language specification.  The Python code is shallowly embedded: strings
are Lean `String`s manipulated through character-list helpers that mirror the
semantics of the Python primitives used by the code (`str.strip`, `str.split`,
`str.join`, `str.replace`, `str.startswith`, `str.lower`), file-backed state is
passed explicitly as the file's contents, the external review fetcher and the
emotion classifier are function parameters, numeric catalog fields are modelled
as parse results (`Option ℚ` / `Option ℤ`, `none` standing for Python's
`ValueError` branch), and Python's `dict` (insertion-ordered) is an association
list with update-in-place / append-at-end semantics.
-/

set_option linter.unusedVariables false

/-! ## Character-level models of the Python string primitives -/

/-- Whitespace characters stripped by Python's `str.strip()` (ASCII subset). -/
def pyWsChar (c : Char) : Bool :=
  c = ' ' || c = '\t' || c = '\n' || c = '\x0d' || c = '\x0b' || c = '\x0c'

/-- ASCII lower-casing of one character, as `str.lower` does on ASCII input. -/
def pyLowerChar (c : Char) : Char :=
  if 'A' ≤ c ∧ c ≤ 'Z' then Char.ofNat (c.toNat + 32) else c

/-- Does the first list start with the second one?  Models `str.startswith`. -/
def startsWithChars : List Char → List Char → Bool
  | _, [] => true
  | [], _ :: _ => false
  | x :: xs, y :: ys => x = y && startsWithChars xs ys

/-- Split on a single separator character; models Python `s.split(c)`, which
always returns at least one (possibly empty) field. -/
def splitOnChar (c : Char) : List Char → List (List Char)
  | [] => [[]]
  | x :: xs =>
    match splitOnChar c xs with
    | [] => [[]]
    | y :: ys => if x = c then [] :: y :: ys else (x :: y) :: ys

/-- Interleave a separator character between the parts; models `c.join(parts)`. -/
def joinWith (c : Char) : List (List Char) → List Char
  | [] => []
  | [x] => x
  | x :: y :: ys => x ++ c :: joinWith c (y :: ys)

/-- Strip leading and trailing whitespace; models `str.strip()`. -/
def stripChars (l : List Char) : List Char :=
  ((l.dropWhile pyWsChar).reverse.dropWhile pyWsChar).reverse

/-- Fuel-indexed scanner for `replaceAllChars` (one unit of fuel per examined
character keeps the recursion structural; the caller supplies enough fuel). -/
def replaceFuel (pat rep : List Char) : Nat → List Char → List Char
  | 0, l => l
  | _, [] => []
  | fuel + 1, x :: xs =>
    if pat ≠ [] ∧ startsWithChars (x :: xs) pat then
      rep ++ replaceFuel pat rep fuel (xs.drop (pat.length - 1))
    else
      x :: replaceFuel pat rep fuel xs

/-- Replace every (leftmost, non-overlapping) occurrence of `pat` by `rep`;
models Python `str.replace(pat, rep)` for a non-empty `pat`. -/
def replaceAllChars (pat rep l : List Char) : List Char :=
  replaceFuel pat rep l.length l

/-- Does `pat` occur as a contiguous substring? -/
def hasSubChars (pat : List Char) : List Char → Bool
  | [] => pat.isEmpty
  | x :: xs => startsWithChars (x :: xs) pat || hasSubChars pat xs

/-- Index of the first occurrence of a string in a list (length if absent). -/
def idxOfStr (a : String) : List String → Nat
  | [] => 0
  | b :: l => if b = a then 0 else idxOfStr a l + 1

/-- Keys in first-seen order, skipping those already in `seen`. -/
def dedupAux (seen : List String) : List String → List String
  | [] => []
  | k :: ks => if k ∈ seen then dedupAux seen ks else k :: dedupAux (seen ++ [k]) ks

/-- Distinct elements of a list in order of first occurrence. -/
def dedupFirstSeen (ks : List String) : List String :=
  dedupAux [] ks

/-! String-typed wrappers. -/

/-- Python `s.strip()`. -/
def pyStrip (s : String) : String := ⟨stripChars s.data⟩

/-- Python `s.lower()` (ASCII model). -/
def pyLower (s : String) : String := ⟨s.data.map pyLowerChar⟩

/-- Python `s.split(c)` for a one-character separator. -/
def pySplit (c : Char) (s : String) : List String :=
  (splitOnChar c s.data).map fun l => ⟨l⟩

/-- Python `c.join(parts)` for a one-character separator. -/
def pyJoin (c : Char) (parts : List String) : String :=
  ⟨joinWith c (parts.map String.data)⟩

/-- Python `s.replace(pat, rep)`. -/
def pyReplace (s pat rep : String) : String :=
  ⟨replaceAllChars pat.data rep.data s.data⟩

/-- Python `s.startswith(pat)`. -/
def pyStartsWith (s pat : String) : Bool :=
  startsWithChars s.data pat.data

/-- Substring test (`pat in s` in Python). -/
def pyHasSub (pat s : String) : Bool :=
  hasSubChars pat.data s.data

/-! ## Data model -/

/-- The user's stored preferences (`preferences.txt`), as built by
`read_preferences` in `src/code.py`. -/
structure Preferences where
  Genres : List String
  Emotions : List String
  Year : String
deriving DecidableEq

/-- One row of the title-basics TSV as seen by the matching engine.
`startYear` is the result of Python `int(movie['startYear'])`:
`none` models the `ValueError` branch of `categorize_year`. -/
structure Movie where
  tconst : String
  originalTitle : String
  startYear : Option Int
  genres : String
deriving DecidableEq

/-- One row of the title-ratings TSV.  `averageRating` / `numVotes` are the
results of `float(...)` / `int(...)`; `none` models the `ValueError` branch. -/
structure RatingRow where
  tconst : String
  averageRating : Option ℚ
  numVotes : Option Int
deriving DecidableEq

/-- External collaborators of the matching engine: the IMDb review fetcher
(keyed by `tconst`; `none` models a failed fetch / no review found) and the
emotion classifier (`results[0]` of the `transformers` pipeline: a list of
(label, score) pairs; scores are modelled as exact rationals). -/
structure Ctx where
  fetchReview : String → Option String
  classify : String → List (String × ℚ)

/-- State threaded through one run of `recommend_based_on_preferences`:
the `recommended` accumulator, the contents of `watch_later.txt`, and the
log of `tconst`s for which a review fetch was issued. -/
structure EngineState where
  recommended : List String
  wlFile : String
  fetchLog : List String
deriving DecidableEq

/-- Python exceptions relevant to the embedded code. -/
inductive PyExc where
  | indexError
deriving DecidableEq

deriving instance DecidableEq for Except

/-! ## User state store (`src/code.py` lines 74-142) -/

/-- Model of `read_watch_later()`: split the file on commas, strip each title,
drop empties.  The missing-file case is the empty string. -/
def read_watch_later (file : String) : List String :=
  let content := pyStrip file
  if content = "" then []
  else ((pySplit ',' content).map pyStrip).filter fun t => t ≠ ""

/-- Model of `append_watch_later(title)`: re-read the file, append, rejoin. -/
def append_watch_later (file : String) (title : String) : String :=
  pyJoin ',' (read_watch_later file ++ [title])

/-- Python `list.pop(i)`: negative indices count from the end, out-of-range
raises `IndexError`. -/
def pyPop {α : Type} (l : List α) (i : Int) : Except PyExc (α × List α) :=
  let j : Int := if i < 0 then i + l.length else i
  if h : 0 ≤ j ∧ j.toNat < l.length then
    .ok (l.get ⟨j.toNat, h.2⟩, l.eraseIdx j.toNat)
  else
    .error .indexError

/-- Model of `remove_watch_later(index)`.  The `Except` layer records where
Python could raise (`list.pop`); the source guards the call with a bounds
check and returns `None` out of range, writing nothing. -/
def remove_watch_later (index : Int) (file : String) : Except PyExc (Option String × String) := do
  let watch_later := read_watch_later file
  if 0 ≤ index ∧ index < watch_later.length then
    let (removed, rest) ← pyPop watch_later index
    return (some removed, pyJoin ',' rest)
  else
    return (none, file)

/-- Model of `write_preferences(preferences)`: the full file contents. -/
def write_preferences (p : Preferences) : String :=
  "Genres:" ++ pyJoin ',' p.Genres ++ "\n" ++
  "Emotions:" ++ pyJoin ',' p.Emotions ++ "\n" ++
  "Year:" ++ p.Year ++ "\n"

/-- One iteration of the line loop of `read_preferences`. -/
def parsePrefLine (p : Preferences) (rawLine : String) : Preferences :=
  let line := pyStrip rawLine
  if pyStartsWith line "Genres:" then
    let genres := pyStrip (pyReplace line "Genres:" "")
    { p with Genres := ((pySplit ',' genres).map pyStrip).filter fun g => g ≠ "" }
  else if pyStartsWith line "Emotions:" then
    let emotions := pyStrip (pyReplace line "Emotions:" "")
    { p with Emotions := ((pySplit ',' emotions).map pyStrip).filter fun e => e ≠ "" }
  else if pyStartsWith line "Year:" then
    { p with Year := pyStrip (pyReplace line "Year:" "") }
  else p

/-- Model of `read_preferences()` applied to a file's contents. -/
def read_preferences (file : String) : Preferences :=
  (pySplit '\n' file).foldl parsePrefLine ⟨[], [], ""⟩

/-! ## Python dict and `sorted` models (used by lines 144-157 and 485-497) -/

/-- `d[k] = d.get(k, 0) + w` on an insertion-ordered dict. -/
def dictAddWeight {β : Type} [Add β] (k : String) (w : β) :
    List (String × β) → List (String × β)
  | [] => [(k, w)]
  | (k', v) :: rest =>
    if k' = k then (k', v + w) :: rest else (k', v) :: dictAddWeight k w rest

/-- `d[k] = v` on an insertion-ordered dict (last write wins). -/
def dictSet {β : Type} (k : String) (v : β) :
    List (String × β) → List (String × β)
  | [] => [(k, v)]
  | (k', v') :: rest =>
    if k' = k then (k', v) :: rest else (k', v') :: dictSet k v rest

/-- `d.get(k)` on an insertion-ordered dict. -/
def pyDictGet {β : Type} (k : String) : List (String × β) → Option β
  | [] => none
  | (k', v) :: rest => if k' = k then some v else pyDictGet k rest

/-- Tally a weighted stream into an insertion-ordered dict, as the
`counts[key] = counts.get(key, 0) + w` loops in the source do. -/
def pyDictTally {β : Type} [Add β] (pairs : List (String × β)) : List (String × β) :=
  pairs.foldl (fun d p => dictAddWeight p.1 p.2 d) []

/-- Insert into a value-descending list, after every element with a strictly
greater value and before the first element with value `≤` — exactly where
Python's stable `sorted(..., key=value, reverse=True)` keeps an element that
came later in the input. -/
def insDesc {β : Type} [LinearOrder β] (x : String × β) :
    List (String × β) → List (String × β)
  | [] => [x]
  | y :: ys => if y.2 ≤ x.2 then x :: y :: ys else y :: insDesc x ys

/-- Stable sort by value descending, modelling
`sorted(d.items(), key=lambda item: item[1], reverse=True)`. -/
def sortDesc {β : Type} [LinearOrder β] : List (String × β) → List (String × β)
  | [] => []
  | x :: xs => insDesc x (sortDesc xs)

/-- Weights carried by a key in a weighted stream, in stream order. -/
def filterWeights {β : Type} (k : String) (pairs : List (String × β)) : List β :=
  (pairs.filter fun p => p.1 = k).map Prod.snd

/-! ## Text analytics core (`analyze_emotions`, lines 144-157) -/

/-- Model of `analyze_emotions(text)`.  `classify` stands for
`emotion_classifier(text)[0]`; the loop lower-cases each label and sums its
scores into an insertion-ordered dict, which is then stably sorted by
aggregate score descending and truncated to the top 3 labels. -/
def analyze_emotions (classify : String → List (String × ℚ)) (text : String) : List String :=
  if pyStrip text = "" then []
  else
    let d := (classify text).foldl
      (fun acc p => dictAddWeight (pyLower p.1) p.2 acc) []
    ((sortDesc d).take 3).map Prod.fst

/-! ## Year banding (`categorize_year`, lines 159-171) -/

/-- Model of `categorize_year(year)`.  The argument is the result of
`int(year)`; `none` models the `ValueError` branch.  A year matching no
branch falls off the end of the Python function and yields `None`. -/
def categorize_year : Option Int → Option String
  | none => none
  | some y =>
    if y ≤ 1999 then some "old"
    else if 2000 ≤ y ∧ y ≤ 2009 then some "middle"
    else if 2010 ≤ y ∧ y ≤ 2019 then some "new"
    else if 2020 ≤ y ∧ y ≤ 2024 then some "very new"
    else none

/-! ## Matching engine (`recommend_based_on_preferences`, lines 299-393) -/

/-- `movie['genres'].split(',') if movie['genres'] else []`. -/
def movieGenresList (m : Movie) : List String :=
  if m.genres = "" then [] else pySplit ',' m.genres

/-- Count of candidate genres matching the preferred genres,
`sum(1 for genre in movie_genres if genre.strip().lower() in preferred_genres_lower)`. -/
def genreMatches (prefs : Preferences) (m : Movie) : Nat :=
  (movieGenresList m).countP fun g =>
    (prefs.Genres.map pyLower).contains (pyLower (pyStrip g))

/-- `2 if len(preferences['Genres']) >= 2 else 1`. -/
def requiredGenreMatches (prefs : Preferences) : Nat :=
  if 2 ≤ prefs.Genres.length then 2 else 1

/-- `2 if len(preferences['Emotions']) >= 2 else 1`. -/
def requiredEmotionMatches (prefs : Preferences) : Nat :=
  if 2 ≤ prefs.Emotions.length then 2 else 1

/-- Count of review emotions matching the preferred emotions. -/
def emotionMatches (prefs : Preferences) (emotions : List String) : Nat :=
  emotions.countP fun e =>
    (prefs.Emotions.map pyLower).contains (pyLower (pyStrip e))

/-- The year gate of the engine:
`if not movie_year_category or (preferences['Year'] and movie_year_category != preferences['Year']): continue`. -/
def yearGatePasses (prefs : Preferences) (m : Movie) : Bool :=
  match categorize_year m.startYear with
  | none => false
  | some c => if prefs.Year ≠ "" ∧ c ≠ prefs.Year then false else true

/-- The dedup gate: is the candidate's lower-cased title already in the
(lower-cased) watched or watch-later snapshots taken at the start of the run? -/
def dedupHit (watchedLower wlLower : List String) (m : Movie) : Bool :=
  watchedLower.contains (pyLower m.originalTitle) ||
  wlLower.contains (pyLower m.originalTitle)

/-- The literal `6.5` of the source's rating test, written as the reduced
fraction `13/2` so that the comparison evaluates by kernel reduction. -/
def ratingThreshold : ℚ := ⟨13, 2, by decide, by decide⟩

/-- The boundary rating value `6.51` (the reduced fraction `651/100`),
used to probe the strictness of the rating threshold. -/
def q651 : ℚ := ⟨651, 100, by decide, by decide⟩

/-- The rating gate applied to the result of `ratings_dict.get(movie['tconst'])`:
missing row, unparsable field, `averageRating <= 6.5` or `numVotes <= 50000`
all reject. -/
def rowRatingGate (r : Option RatingRow) : Bool :=
  match r with
  | none => false
  | some row =>
    match row.averageRating, row.numVotes with
    | some avg, some votes =>
      if avg ≤ ratingThreshold ∨ votes ≤ 50000 then false else true
    | _, _ => false

/-- `ratings_dict = {rating['tconst']: rating for rating in ratings}`. -/
def ratingsDict (ratings : List RatingRow) : List (String × RatingRow) :=
  ratings.foldl (fun d r => dictSet r.tconst r d) []

/-- The candidate loop of `recommend_based_on_preferences`.  The watched and
watch-later snapshots are fixed parameters — the source computes them once
before the loop and never refreshes them.  Every review fetch appends the
movie's `tconst` to `fetchLog`; an accepted movie is appended to
`recommended` and persisted to the watch-later file before the next
candidate is examined. -/
def recLoop (ctx : Ctx) (prefs : Preferences) (rdict : List (String × RatingRow))
    (watchedLower wlLower : List String) :
    List Movie → EngineState → EngineState
  | [], st => st
  | m :: rest, st =>
    if 3 ≤ st.recommended.length then st
    else if genreMatches prefs m < requiredGenreMatches prefs then
      recLoop ctx prefs rdict watchedLower wlLower rest st
    else if yearGatePasses prefs m = false then
      recLoop ctx prefs rdict watchedLower wlLower rest st
    else if dedupHit watchedLower wlLower m then
      recLoop ctx prefs rdict watchedLower wlLower rest st
    else if rowRatingGate (pyDictGet m.tconst rdict) = false then
      recLoop ctx prefs rdict watchedLower wlLower rest st
    else
      let st' : EngineState := { st with fetchLog := st.fetchLog ++ [m.tconst] }
      match ctx.fetchReview m.tconst with
      | none => recLoop ctx prefs rdict watchedLower wlLower rest st'
      | some reviewText =>
        if reviewText = "" then recLoop ctx prefs rdict watchedLower wlLower rest st'
        else
          let emotions := analyze_emotions ctx.classify reviewText
          if emotionMatches prefs emotions < requiredEmotionMatches prefs then
            recLoop ctx prefs rdict watchedLower wlLower rest st'
          else
            recLoop ctx prefs rdict watchedLower wlLower rest
              { st' with
                recommended := st'.recommended ++ [m.originalTitle],
                wlFile := append_watch_later st'.wlFile m.originalTitle }

/-- Model of `recommend_based_on_preferences(preferences, full_titles, ratings)`.
`watchedTitles` is the list of titles parsed from `watched.txt`; `wlFile` is
the contents of `watch_later.txt`. -/
def recommend_based_on_preferences (ctx : Ctx) (prefs : Preferences)
    (movies : List Movie) (ratings : List RatingRow)
    (watchedTitles : List String) (wlFile : String) : EngineState :=
  let watch_later := read_watch_later wlFile
  let watchedLower := watchedTitles.map pyLower
  let wlLower := watch_later.map pyLower
  recLoop ctx prefs (ratingsDict ratings) watchedLower wlLower movies ⟨[], wlFile, []⟩

/-! ## Preference deriver, genre aggregation (`renew_preferences`, lines 485-497) -/

/-- One session entry of `renew_preferences` (title, year, genres, review). -/
structure SessionMovie where
  originalTitle : String
  startYear : Option Int
  genres : String
  review : String

/-- The genre tokens tallied by `renew_preferences`: for each entered movie
with a non-empty `genres` field, split on commas, strip, drop empties. -/
def renewGenreTokens (movies : List SessionMovie) : List String :=
  (movies.map fun m =>
    if m.genres = "" then []
    else ((pySplit ',' m.genres).map pyStrip).filter fun g => g ≠ "").flatten

/-- The `genres_count` dict of `renew_preferences`: each genre token adds 1
to its entry (`genres_count[genre] = genres_count.get(genre, 0) + 1`). -/
def genreTally (movies : List SessionMovie) : List (String × Nat) :=
  pyDictTally ((renewGenreTokens movies).map fun g => (g, (1 : Nat)))

/-- The genre aggregation of `renew_preferences`: tally per genre string,
stably sort by count descending, take the top three genre names. -/
def deriveGenres (movies : List SessionMovie) : List String :=
  ((sortDesc (genreTally movies)).take 3).map Prod.fst

/-- The `emotion_counts` dict of `analyze_emotions`: per lower-cased label,
the sum of that label's classifier scores, in first-occurrence order. -/
def emotionTally (classify : String → List (String × ℚ)) (text : String) :
    List (String × ℚ) :=
  pyDictTally ((classify text).map fun p => (pyLower p.1, p.2))

/-- Conditions under which a stored genre/emotion string survives the
preferences file round trip: non-empty, free of commas and line breaks,
already stripped, and containing no occurrence of its line's key (the
source's `line.replace(key, "")` removes every occurrence of the key, not
just the leading one). -/
def cleanItem (key : String) (s : String) : Prop :=
  s ≠ "" ∧ pyStrip s = s ∧ ',' ∉ s.data ∧ '\n' ∉ s.data ∧
    hasSubChars key.data s.data = false

instance (key s : String) : Decidable (cleanItem key s) := by
  unfold cleanItem; infer_instance

/-- The year bands the code can store, plus the empty initial band. -/
def validBand (b : String) : Prop :=
  b = "old" ∨ b = "middle" ∨ b = "new" ∨ b = "very new" ∨ b = "unknown" ∨ b = ""

instance (b : String) : Decidable (validBand b) := by
  unfold validBand; infer_instance

/-! ## Helper lemmas about the engine loop -/

/-- Once three recommendations have been collected, the loop breaks at the top
of every iteration and the state no longer changes. -/
lemma recLoop_full (ctx : Ctx) (prefs : Preferences) (rdict : List (String × RatingRow))
    (ww wl : List String) :
    ∀ (movies : List Movie) (st : EngineState),
      3 ≤ st.recommended.length → recLoop ctx prefs rdict ww wl movies st = st
  | [], st, h => rfl
  | m :: rest, st, h => by simp only [recLoop, if_pos h]

/-- A candidate whose genre-match count falls short of the requirement is
skipped with the state (in particular the fetch log) untouched. -/
lemma recLoop_genre_skip (ctx : Ctx) (prefs : Preferences) (rdict : List (String × RatingRow))
    (ww wl : List String) (m : Movie) (rest : List Movie) (st : EngineState)
    (h : genreMatches prefs m < requiredGenreMatches prefs) :
    recLoop ctx prefs rdict ww wl (m :: rest) st = recLoop ctx prefs rdict ww wl rest st := by
  by_cases hfull : 3 ≤ st.recommended.length
  · rw [recLoop_full ctx prefs rdict ww wl (m :: rest) st hfull,
      recLoop_full ctx prefs rdict ww wl rest st hfull]
  · simp only [recLoop, if_neg hfull, if_pos h]

/-- Every `tconst` in the final fetch log was already logged before the loop
ran, or belongs to a processed movie that passed the genre gate. -/
lemma recLoop_fetchLog (ctx : Ctx) (prefs : Preferences) (rdict : List (String × RatingRow))
    (ww wl : List String) :
    ∀ (movies : List Movie) (st : EngineState) (t : String),
      t ∈ (recLoop ctx prefs rdict ww wl movies st).fetchLog →
      t ∈ st.fetchLog ∨
        ∃ m ∈ movies, t = m.tconst ∧ requiredGenreMatches prefs ≤ genreMatches prefs m := by
  intro movies
  induction movies with
  | nil => intro st t ht; exact Or.inl ht
  | cons m rest ih =>
    intro st t ht
    have lift : t ∈ st.fetchLog ∨
        (∃ m' ∈ rest, t = m'.tconst ∧ requiredGenreMatches prefs ≤ genreMatches prefs m') →
        t ∈ st.fetchLog ∨
        (∃ m' ∈ m :: rest, t = m'.tconst ∧ requiredGenreMatches prefs ≤ genreMatches prefs m') := by
      rintro (h | ⟨m', hm', h1, h2⟩)
      · exact Or.inl h
      · exact Or.inr ⟨m', List.mem_cons_of_mem _ hm', h1, h2⟩
    by_cases hfull : 3 ≤ st.recommended.length
    · rw [recLoop_full ctx prefs rdict ww wl _ st hfull] at ht
      exact Or.inl ht
    by_cases hg : genreMatches prefs m < requiredGenreMatches prefs
    · rw [recLoop_genre_skip ctx prefs rdict ww wl m rest st hg] at ht
      exact lift (ih st t ht)
    have hg' : requiredGenreMatches prefs ≤ genreMatches prefs m := Nat.le_of_not_lt hg
    have fetched : ∀ st' : EngineState,
        st'.fetchLog = st.fetchLog ++ [m.tconst] →
        t ∈ (recLoop ctx prefs rdict ww wl rest st').fetchLog →
        t ∈ st.fetchLog ∨
          (∃ m' ∈ m :: rest, t = m'.tconst ∧
            requiredGenreMatches prefs ≤ genreMatches prefs m') := by
      intro st' hlog ht'
      rcases ih st' t ht' with h | ⟨m', hm', h1, h2⟩
      · rw [hlog] at h
        rcases List.mem_append.1 h with h | h
        · exact Or.inl h
        · have : t = m.tconst := by simpa using h
          exact Or.inr ⟨m, List.mem_cons_self m rest, this, hg'⟩
      · exact Or.inr ⟨m', List.mem_cons_of_mem _ hm', h1, h2⟩
    simp only [recLoop, if_neg hfull, if_neg hg] at ht
    by_cases hy : yearGatePasses prefs m = false
    · rw [if_pos hy] at ht
      exact lift (ih st t ht)
    rw [if_neg hy] at ht
    by_cases hd : dedupHit ww wl m = true
    · rw [if_pos hd] at ht
      exact lift (ih st t ht)
    rw [if_neg hd] at ht
    by_cases hr : rowRatingGate (pyDictGet m.tconst rdict) = false
    · rw [if_pos hr] at ht
      exact lift (ih st t ht)
    rw [if_neg hr] at ht
    cases hfr : ctx.fetchReview m.tconst with
    | none =>
      simp only [hfr] at ht
      exact fetched _ rfl ht
    | some rtext =>
      simp only [hfr] at ht
      by_cases hne : rtext = ""
      · rw [if_pos hne] at ht
        exact fetched _ rfl ht
      rw [if_neg hne] at ht
      by_cases he : emotionMatches prefs (analyze_emotions ctx.classify rtext) <
          requiredEmotionMatches prefs
      · rw [if_pos he] at ht
        exact fetched _ rfl ht
      · rw [if_neg he] at ht
        exact fetched _ rfl ht

/-! ## Helper lemmas about `remove_watch_later` -/

/-- Out of range, the source's bounds check routes around `list.pop`: the call
returns `None` and the file is not rewritten. -/
lemma remove_wl_out_of_range (file : String) (index : Int)
    (h : index < 0 ∨ ((read_watch_later file).length : Int) ≤ index) :
    remove_watch_later index file = Except.ok (none, file) := by
  have hneg : ¬(0 ≤ index ∧ index < ((read_watch_later file).length : Int)) := by omega
  simp only [remove_watch_later, if_neg hneg]
  rfl

/-- In range, the guarded `list.pop` succeeds: the popped title is returned
and the remaining titles are rejoined and written back. -/
lemma remove_wl_in_range (file : String) (index : Int)
    (h0 : 0 ≤ index) (h1 : index < ((read_watch_later file).length : Int)) :
    ∃ t, (read_watch_later file)[index.toNat]? = some t ∧
      remove_watch_later index file =
        Except.ok (some t, pyJoin ',' ((read_watch_later file).eraseIdx index.toNat)) := by
  have hlt : index.toNat < (read_watch_later file).length := by omega
  refine ⟨(read_watch_later file).get ⟨index.toNat, hlt⟩, ?_, ?_⟩
  · simp [List.getElem?_eq_getElem hlt]
  · have hc : 0 ≤ index ∧ index < ((read_watch_later file).length : Int) := ⟨h0, h1⟩
    have hij : ¬ index < 0 := by omega
    have hd : 0 ≤ index ∧ index.toNat < (read_watch_later file).length := ⟨h0, hlt⟩
    simp only [remove_watch_later, if_pos hc, pyPop, if_neg hij, dif_pos hd]
    rfl

/-! ## Claim theorems -/

/-- C2.  For every candidate whose genre-match count is below the required
number of matches, the matching engine rejects it before any review fetch
occurs: processing such a candidate leaves the whole engine state (including
the fetch log) unchanged, and, globally, every logged fetch belongs to a
candidate that passed the genre gate. -/
theorem c2_genre_gate_short_circuits (ctx : Ctx) (prefs : Preferences)
    (rdict : List (String × RatingRow)) (ww wl : List String) :
    (∀ (m : Movie) (rest : List Movie) (st : EngineState),
      genreMatches prefs m < requiredGenreMatches prefs →
      recLoop ctx prefs rdict ww wl (m :: rest) st = recLoop ctx prefs rdict ww wl rest st) ∧
    (∀ (movies : List Movie) (st : EngineState) (t : String),
      t ∈ (recLoop ctx prefs rdict ww wl movies st).fetchLog →
      t ∈ st.fetchLog ∨
        ∃ m ∈ movies, t = m.tconst ∧ requiredGenreMatches prefs ≤ genreMatches prefs m) :=
  ⟨fun m rest st h => recLoop_genre_skip ctx prefs rdict ww wl m rest st h,
   fun movies st t ht => recLoop_fetchLog ctx prefs rdict ww wl movies st t ht⟩

/-- Witness for C2: a candidate with no matching genre is skipped without any
state change (in particular, no review fetch is logged). -/
theorem c2_genre_gate_short_circuits_witness :
    recLoop ⟨fun _ => some "great", fun _ => [("joy", (1 : ℚ))]⟩ ⟨["Drama"], ["joy"], "new"⟩
      [] [] [] [⟨"t1", "X", some 2015, "Horror"⟩] ⟨[], "", []⟩ = ⟨[], "", []⟩ :=
  (c2_genre_gate_short_circuits ⟨fun _ => some "great", fun _ => [("joy", (1 : ℚ))]⟩
    ⟨["Drama"], ["joy"], "new"⟩ [] [] []).1
    ⟨"t1", "X", some 2015, "Horror"⟩ [] ⟨[], "", []⟩ (by decide)

/-- C3.  The rating gate accepts exactly when a joined rating row exists whose
parsed `averageRating` exceeds 6.5 strictly and whose parsed `voteCount`
exceeds 50000 strictly; `averageRating == 6.5` rejects, `voteCount == 50000`
rejects, `6.51` with `50001` passes, and a non-numeric rating or vote field
(modelled by `none`) rejects rather than raising. -/
theorem c3_rating_gate :
    ratingThreshold = 6.5 ∧ q651 = 6.51 ∧
    (∀ r : Option RatingRow, rowRatingGate r = true ↔
      ∃ row, r = some row ∧ ∃ avg votes, row.averageRating = some avg ∧
        row.numVotes = some votes ∧ ratingThreshold < avg ∧ 50000 < votes) ∧
    (∀ t votes, rowRatingGate (some ⟨t, some ratingThreshold, votes⟩) = false) ∧
    (∀ t avg, rowRatingGate (some ⟨t, avg, some 50000⟩) = false) ∧
    rowRatingGate (some ⟨"tt0000001", some q651, some 50001⟩) = true ∧
    (∀ t votes, rowRatingGate (some ⟨t, none, votes⟩) = false) ∧
    (∀ t avg, rowRatingGate (some ⟨t, avg, none⟩) = false) ∧
    rowRatingGate none = false := by
  refine ⟨?_, ?_, ?_, ?_, ?_, by decide, ?_, ?_, rfl⟩
  · rw [show ratingThreshold = Rat.divInt 13 2 from Rat.mk'_eq_divInt, Rat.divInt_eq_div]
    norm_num
  · rw [show q651 = Rat.divInt 651 100 from Rat.mk'_eq_divInt, Rat.divInt_eq_div]
    norm_num
  · intro r
    constructor
    · intro h
      match r with
      | none => simp [rowRatingGate] at h
      | some row =>
        match ha : row.averageRating, hv : row.numVotes with
        | some avg, some votes =>
          have hcond : ¬(avg ≤ ratingThreshold ∨ votes ≤ 50000) := by
            intro hor
            simp only [rowRatingGate, ha, hv, if_pos hor] at h
            exact Bool.false_ne_true h
          push_neg at hcond
          exact ⟨row, rfl, avg, votes, ha, hv, hcond.1, hcond.2⟩
        | some _, none => simp [rowRatingGate, ha, hv] at h
        | none, _ => simp [rowRatingGate, ha] at h
    · rintro ⟨row, rfl, avg, votes, ha, hv, h1, h2⟩
      simp only [rowRatingGate, ha, hv]
      rw [if_neg]
      push_neg
      exact ⟨h1, h2⟩
  · intro t votes
    cases votes <;> simp [rowRatingGate]
  · intro t avg
    cases avg <;> simp [rowRatingGate]
  · intro t votes
    cases votes <;> simp [rowRatingGate]
  · intro t avg
    cases avg <;> simp [rowRatingGate]

/-- Witness for C3: the boundary rows evaluated through the theorem. -/
theorem c3_rating_gate_witness :
    rowRatingGate (some ⟨"tt1", some ratingThreshold, some 100000⟩) = false ∧
    rowRatingGate (some ⟨"tt1", some 8, some 50000⟩) = false ∧
    rowRatingGate (some ⟨"tt1", some 8, some 100000⟩) = true :=
  ⟨c3_rating_gate.2.2.2.1 "tt1" (some 100000),
   c3_rating_gate.2.2.2.2.1 "tt1" (some 8),
   (c3_rating_gate.2.2.1 (some ⟨"tt1", some 8, some 100000⟩)).mpr
     ⟨⟨"tt1", some 8, some 100000⟩, rfl, 8, 100000, rfl, rfl, by decide, by decide⟩⟩

/-- C4.  Year classification maps every integer year `≤ 1999` to `old`,
`2000–2009` to `middle`, `2010–2019` to `new`, `2020–2024` to `very new`
(the spec's "very-new" band), and any other year (e.g. 2025) or a
non-numeric year to `none` (unclassifiable), which the engine's year gate
rejects; a candidate whose band differs from a non-empty
`preferences.yearBand` is rejected. -/
theorem c4_year_banding :
    (∀ y : Int, y ≤ 1999 → categorize_year (some y) = some "old") ∧
    (∀ y : Int, 2000 ≤ y → y ≤ 2009 → categorize_year (some y) = some "middle") ∧
    (∀ y : Int, 2010 ≤ y → y ≤ 2019 → categorize_year (some y) = some "new") ∧
    (∀ y : Int, 2020 ≤ y → y ≤ 2024 → categorize_year (some y) = some "very new") ∧
    (∀ y : Int, 2025 ≤ y → categorize_year (some y) = none) ∧
    categorize_year none = none ∧
    (∀ (prefs : Preferences) (m : Movie), categorize_year m.startYear = none →
      yearGatePasses prefs m = false) ∧
    (∀ (prefs : Preferences) (m : Movie) (c : String), categorize_year m.startYear = some c →
      prefs.Year ≠ "" → c ≠ prefs.Year → yearGatePasses prefs m = false) := by
  refine ⟨?_, ?_, ?_, ?_, ?_, rfl, ?_, ?_⟩
  · intro y h; simp only [categorize_year]; rw [if_pos h]
  · intro y h1 h2
    simp only [categorize_year]
    rw [if_neg (by omega), if_pos ⟨h1, h2⟩]
  · intro y h1 h2
    simp only [categorize_year]
    rw [if_neg (by omega), if_neg (by omega), if_pos ⟨h1, h2⟩]
  · intro y h1 h2
    simp only [categorize_year]
    rw [if_neg (by omega), if_neg (by omega), if_neg (by omega), if_pos ⟨h1, h2⟩]
  · intro y h
    simp only [categorize_year]
    rw [if_neg (by omega), if_neg (by omega), if_neg (by omega), if_neg (by omega)]
  · intro prefs m h
    simp only [yearGatePasses, h]
  · intro prefs m c hc hy hne
    simp only [yearGatePasses, hc]
    rw [if_pos ⟨hy, hne⟩]

/-- Witness for C4: the spec's year-banding test vectors, via the theorem. -/
theorem c4_year_banding_witness :
    categorize_year (some 1999) = some "old" ∧
    categorize_year (some 2000) = some "middle" ∧
    categorize_year (some 2009) = some "middle" ∧
    categorize_year (some 2010) = some "new" ∧
    categorize_year (some 2019) = some "new" ∧
    categorize_year (some 2020) = some "very new" ∧
    categorize_year (some 2024) = some "very new" ∧
    categorize_year (some 2025) = none ∧
    yearGatePasses ⟨[], [], "new"⟩ ⟨"t1", "X", some 2025, ""⟩ = false ∧
    yearGatePasses ⟨[], [], "old"⟩ ⟨"t1", "X", some 2015, ""⟩ = false :=
  ⟨c4_year_banding.1 1999 (by decide),
   c4_year_banding.2.1 2000 (by decide) (by decide),
   c4_year_banding.2.1 2009 (by decide) (by decide),
   c4_year_banding.2.2.1 2010 (by decide) (by decide),
   c4_year_banding.2.2.1 2019 (by decide) (by decide),
   c4_year_banding.2.2.2.1 2020 (by decide) (by decide),
   c4_year_banding.2.2.2.1 2024 (by decide) (by decide),
   c4_year_banding.2.2.2.2.1 2025 (by decide),
   c4_year_banding.2.2.2.2.2.2.1 ⟨[], [], "new"⟩ ⟨"t1", "X", some 2025, ""⟩ (by decide),
   c4_year_banding.2.2.2.2.2.2.2 ⟨[], [], "old"⟩ ⟨"t1", "X", some 2015, ""⟩ "new"
     (by decide) (by decide) (by decide)⟩

/-- C6 counterexample.  At index 5 with a two-element watch-later list
(outside `[0, length)`), `remove_watch_later` does not fail with an
`IndexError`: it returns `None` and leaves the file unchanged, refuting the
claim's error-handling clause at this concrete input. -/
theorem c6_counterexample :
    read_watch_later "a,b" = ["a", "b"] ∧
    remove_watch_later 5 "a,b" = Except.ok (none, "a,b") ∧
    remove_watch_later 5 "a,b" ≠ Except.error PyExc.indexError := by
  refine ⟨by decide, by decide, by decide⟩

/-- C6 (amended).  `removeWatchLaterAt(index)` returns the removed title and
rewrites the file when `index` is inside `[0, length)`; when `index` is
outside `[0, length)` it does not raise: it returns `None` (after printing a
message) and leaves the persisted list unchanged. -/
theorem c6_remove_watch_later (file : String) (index : Int) :
    (0 ≤ index → index < ((read_watch_later file).length : Int) →
      ∃ t, (read_watch_later file)[index.toNat]? = some t ∧
        remove_watch_later index file =
          Except.ok (some t, pyJoin ',' ((read_watch_later file).eraseIdx index.toNat))) ∧
    (index < 0 ∨ ((read_watch_later file).length : Int) ≤ index →
      remove_watch_later index file = Except.ok (none, file)) :=
  ⟨fun h0 h1 => remove_wl_in_range file index h0 h1,
   fun h => remove_wl_out_of_range file index h⟩

/-- Witness for C6: removing index 1 from `"a,b,c"` yields `"b"` and the file
`"a,c"`; removing index 5 from `"x"` returns `None` with the file intact. -/
theorem c6_remove_watch_later_witness :
    remove_watch_later 1 "a,b,c" = Except.ok (some "b", "a,c") ∧
    remove_watch_later 5 "x" = Except.ok (none, "x") := by
  constructor
  · obtain ⟨t, ht, heq⟩ := (c6_remove_watch_later "a,b,c" 1).1 (by decide) (by decide)
    have hv : (read_watch_later "a,b,c")[(1 : Int).toNat]? = some "b" := by decide
    rw [hv] at ht
    cases ht
    have hj : pyJoin ',' ((read_watch_later "a,b,c").eraseIdx (1 : Int).toNat) = "a,c" := by
      decide
    rw [hj] at heq
    exact heq
  · exact (c6_remove_watch_later "x" 5).2 (by decide)

/-- C10.  When `remove_watch_later` is called with an index outside
`[0, length)` of the current watch-later list (including negative indices),
it returns `None` and the persisted watch-later state is left completely
unchanged — no write occurs. -/
theorem c10_out_of_range_leaves_state (file : String) (index : Int)
    (h : index < 0 ∨ ((read_watch_later file).length : Int) ≤ index) :
    remove_watch_later index file = Except.ok (none, file) :=
  remove_wl_out_of_range file index h

/-- Witness for C10: a negative index and a too-large index both return
`None` and leave the file `"a,b"` untouched. -/
theorem c10_out_of_range_leaves_state_witness :
    remove_watch_later (-1) "a,b" = Except.ok (none, "a,b") ∧
    remove_watch_later 2 "a,b" = Except.ok (none, "a,b") :=
  ⟨c10_out_of_range_leaves_state "a,b" (-1) (by decide),
   c10_out_of_range_leaves_state "a,b" 2 (by decide)⟩

/-- C1 counterexample.  Two catalog rows carry the same title `"X"` and both
pass every gate.  The claim predicts the second is rejected by the dedup
gate (the first acceptance was appended to WatchLater); in fact the run
accepts both — the dedup snapshots are taken once, before the loop — so the
result sequence is `["X", "X"]` and the watch-later file ends as `"X,X"`. -/
theorem c1_counterexample :
    recommend_based_on_preferences
      ⟨fun _ => some "great", fun _ => [("joy", (1 : ℚ))]⟩
      ⟨["Drama"], ["joy"], ""⟩
      [⟨"t1", "X", some 2015, "Drama"⟩, ⟨"t2", "X", some 2015, "Drama"⟩]
      [⟨"t1", some 8, some 100000⟩, ⟨"t2", some 8, some 100000⟩]
      [] "" = ⟨["X", "X"], "X,X", ["t1", "t2"]⟩ := by
  decide

/-- C1 (amended).  A candidate passing all six gates is accepted: its title is
appended to the result sequence and immediately appended to the persisted
WatchLater file, before the next candidate is examined.  The dedup gate,
however, consults only the watched/watch-later snapshots (`ww`, `wl`) taken
before the loop, which the acceptance does not update, so a later candidate
in the same run with the same title is not rejected by the dedup gate. -/
theorem c1_accept_appends (ctx : Ctx) (prefs : Preferences)
    (rdict : List (String × RatingRow)) (ww wl : List String)
    (m : Movie) (rest : List Movie) (st : EngineState)
    (hfull : st.recommended.length < 3)
    (hg : requiredGenreMatches prefs ≤ genreMatches prefs m)
    (hy : yearGatePasses prefs m = true)
    (hd : dedupHit ww wl m = false)
    (hr : rowRatingGate (pyDictGet m.tconst rdict) = true)
    (rtext : String) (hf : ctx.fetchReview m.tconst = some rtext) (hne : rtext ≠ "")
    (he : requiredEmotionMatches prefs ≤
      emotionMatches prefs (analyze_emotions ctx.classify rtext)) :
    recLoop ctx prefs rdict ww wl (m :: rest) st =
      recLoop ctx prefs rdict ww wl rest
        { recommended := st.recommended ++ [m.originalTitle],
          wlFile := append_watch_later st.wlFile m.originalTitle,
          fetchLog := st.fetchLog ++ [m.tconst] } := by
  have hfull' : ¬ 3 ≤ st.recommended.length := by omega
  have hg' : ¬ genreMatches prefs m < requiredGenreMatches prefs := by omega
  have hy' : ¬ yearGatePasses prefs m = false := by simp [hy]
  have hd' : ¬ dedupHit ww wl m = true := by simp [hd]
  have hr' : ¬ rowRatingGate (pyDictGet m.tconst rdict) = false := by simp [hr]
  have he' : ¬ emotionMatches prefs (analyze_emotions ctx.classify rtext) <
      requiredEmotionMatches prefs := by omega
  simp only [recLoop, if_neg hfull', if_neg hg', if_neg hy', if_neg hd', if_neg hr', hf,
    if_neg hne, if_neg he']

/-- Witness for C1: the accepted candidate `"X"` is appended to the result
sequence and the watch-later file in the same step. -/
theorem c1_accept_appends_witness :
    recLoop ⟨fun _ => some "great", fun _ => [("joy", (1 : ℚ))]⟩ ⟨["Drama"], ["joy"], ""⟩
      [("t1", ⟨"t1", some 8, some 100000⟩)] [] []
      [⟨"t1", "X", some 2015, "Drama"⟩] ⟨[], "", []⟩ =
      recLoop ⟨fun _ => some "great", fun _ => [("joy", (1 : ℚ))]⟩ ⟨["Drama"], ["joy"], ""⟩
        [("t1", ⟨"t1", some 8, some 100000⟩)] [] [] [] ⟨["X"], "X", ["t1"]⟩ := by
  have h := c1_accept_appends
    ⟨fun _ => some "great", fun _ => [("joy", (1 : ℚ))]⟩ ⟨["Drama"], ["joy"], ""⟩
    [("t1", ⟨"t1", some 8, some 100000⟩)] [] []
    ⟨"t1", "X", some 2015, "Drama"⟩ [] ⟨[], "", []⟩
    (by decide) (by decide) (by decide) (by decide) (by decide)
    "great" rfl (by decide) (by decide)
  exact h.trans (by decide)

/-- C5.  The genre gate counts, case-insensitively, the candidate's genres
that appear in `preferences.genres`; the required count is 2 when
`len(preferences.genres) ≥ 2` and 1 otherwise, and a candidate below the
requirement is rejected (skipped with no state change).  Consequently, when
`preferences.genres` is empty no candidate can pass the genre gate: the
whole engine loop leaves its state untouched. -/
theorem c5_genre_gate (prefs : Preferences) :
    (∀ m : Movie, genreMatches prefs m =
      (movieGenresList m).countP fun g =>
        decide (∃ p ∈ prefs.Genres, pyLower (pyStrip g) = pyLower p)) ∧
    requiredGenreMatches prefs = (if 2 ≤ prefs.Genres.length then 2 else 1) ∧
    (∀ (ctx : Ctx) (rdict : List (String × RatingRow)) (ww wl : List String)
      (m : Movie) (rest : List Movie) (st : EngineState),
      genreMatches prefs m < requiredGenreMatches prefs →
      recLoop ctx prefs rdict ww wl (m :: rest) st = recLoop ctx prefs rdict ww wl rest st) ∧
    (prefs.Genres = [] →
      ∀ (ctx : Ctx) (rdict : List (String × RatingRow)) (ww wl : List String)
        (movies : List Movie) (st : EngineState),
        recLoop ctx prefs rdict ww wl movies st = st) := by
  refine ⟨?_, rfl, ?_, ?_⟩
  · intro m
    apply List.countP_congr
    intro g _
    simp only [genreMatches, List.contains, decide_eq_true_eq]
    rw [List.elem_iff]
    constructor
    · intro h
      rcases List.mem_map.1 h with ⟨p, hp, he⟩
      exact ⟨p, hp, he.symm⟩
    · rintro ⟨p, hp, he⟩
      exact List.mem_map.2 ⟨p, hp, he.symm⟩
  · intro ctx rdict ww wl m rest st h
    exact recLoop_genre_skip ctx prefs rdict ww wl m rest st h
  · intro hG ctx rdict ww wl movies st
    have hfail : ∀ m : Movie, genreMatches prefs m < requiredGenreMatches prefs := by
      intro m
      have h0 : genreMatches prefs m = 0 := by
        simp [genreMatches, hG, List.contains]
      have h1 : requiredGenreMatches prefs = 1 := by
        simp [requiredGenreMatches, hG]
      omega
    induction movies with
    | nil => rfl
    | cons m rest ih =>
      by_cases hfull : 3 ≤ st.recommended.length
      · exact recLoop_full ctx prefs rdict ww wl (m :: rest) st hfull
      · rw [recLoop_genre_skip ctx prefs rdict ww wl m rest st (hfail m)]
        exact ih

/-- Witness for C5: the spec's required-match example, and an engine run with
empty preferred genres accepting nothing. -/
theorem c5_genre_gate_witness :
    genreMatches ⟨["Action", "Comedy"], [], ""⟩ ⟨"t1", "M", none, "Action"⟩ =
      (movieGenresList ⟨"t1", "M", none, "Action"⟩).countP (fun g =>
        decide (∃ p ∈ (["Action", "Comedy"] : List String),
          pyLower (pyStrip g) = pyLower p)) ∧
    recLoop ⟨fun _ => none, fun _ => []⟩ ⟨[], [], ""⟩ [] [] []
      [⟨"t1", "M", some 2015, "Drama"⟩] ⟨[], "", []⟩ = ⟨[], "", []⟩ :=
  ⟨(c5_genre_gate ⟨["Action", "Comedy"], [], ""⟩).1 ⟨"t1", "M", none, "Action"⟩,
   (c5_genre_gate ⟨[], [], ""⟩).2.2.2 rfl ⟨fun _ => none, fun _ => []⟩ [] [] []
     [⟨"t1", "M", some 2015, "Drama"⟩] ⟨[], "", []⟩⟩

/-! ## Character-level lemmas for the preferences round trip -/

lemma startsWith_nil_right (l : List Char) : startsWithChars l [] = true := by
  cases l <;> rfl

lemma startsWith_append_self (p r : List Char) : startsWithChars (p ++ r) p = true := by
  induction p with
  | nil => exact startsWith_nil_right r
  | cons x xs ih => simp [startsWithChars, ih]

lemma startsWith_head_ne {x y : Char} (xs ys : List Char) (h : x ≠ y) :
    startsWithChars (x :: xs) (y :: ys) = false := by
  simp [startsWithChars, h]

lemma startsWith_skip (c : Char) :
    ∀ (pat xs ys : List Char), c ∉ pat →
      startsWithChars (xs ++ c :: ys) pat = startsWithChars xs pat
  | [], xs, ys, _ => by cases xs <;> rfl
  | p :: ps, [], ys, h => by
    have hpc : ¬ c = p := fun he => h (by simp [he])
    simp only [List.nil_append, startsWithChars, decide_eq_false hpc, Bool.false_and]
  | p :: ps, x :: xs, ys, h => by
    have h' : c ∉ ps := fun hc => h (List.mem_cons_of_mem _ hc)
    simp only [List.cons_append, startsWithChars, List.append_eq,
      startsWith_skip c ps xs ys h']

lemma hasSub_append_sep {pat : List Char} {c : Char} (hne : pat ≠ []) (hc : c ∉ pat) :
    ∀ (xs ys : List Char),
      hasSubChars pat (xs ++ c :: ys) = (hasSubChars pat xs || hasSubChars pat ys)
  | [], ys => by
    obtain ⟨p, ps, rfl⟩ : ∃ p ps, pat = p :: ps := by
      cases pat with
      | nil => exact absurd rfl hne
      | cons p ps => exact ⟨p, ps, rfl⟩
    have hpc : c ≠ p := fun he => hc (by simp [he])
    simp only [List.nil_append, hasSubChars, startsWith_head_ne _ _ hpc, Bool.false_or,
      List.isEmpty_cons]
  | x :: xs, ys => by
    simp only [List.cons_append, hasSubChars, List.append_eq]
    rw [show x :: (xs ++ c :: ys) = (x :: xs) ++ c :: ys from rfl,
      startsWith_skip c pat (x :: xs) ys hc,
      hasSub_append_sep hne hc xs ys, Bool.or_assoc]

lemma mem_joinWith {c sep : Char} (hcs : c ≠ sep) :
    ∀ (ls : List (List Char)), (∀ l ∈ ls, c ∉ l) → c ∉ joinWith sep ls
  | [], _ => by simp [joinWith]
  | [x], h => by simpa [joinWith] using h x (by simp)
  | x :: y :: ys, h => by
    simp only [joinWith, List.mem_append, List.mem_cons]
    rintro (hx | hsep | htail)
    · exact h x (by simp) hx
    · exact hcs hsep
    · exact mem_joinWith hcs (y :: ys) (fun l hl => h l (by simp [hl]))
        (by simpa [joinWith] using htail)

lemma hasSub_joinWith {pat : List Char} {sep : Char} (hne : pat ≠ []) (hsep : sep ∉ pat) :
    ∀ (ls : List (List Char)), (∀ l ∈ ls, hasSubChars pat l = false) →
      hasSubChars pat (joinWith sep ls) = false
  | [], _ => by
    cases pat with
    | nil => exact absurd rfl hne
    | cons p ps => rfl
  | [x], h => h x (by simp)
  | x :: y :: ys, h => by
    simp only [joinWith]
    rw [hasSub_append_sep hne hsep x (joinWith sep (y :: ys)), h x (by simp),
      hasSub_joinWith hne hsep (y :: ys) (fun l hl => h l (by simp [hl]))]
    rfl

lemma replaceFuel_no_occ {pat rep : List Char} :
    ∀ (fuel : Nat) (l : List Char), hasSubChars pat l = false → replaceFuel pat rep fuel l = l
  | 0, l, _ => by cases l <;> rfl
  | fuel + 1, [], _ => rfl
  | fuel + 1, x :: xs, h => by
    have h' := h
    simp only [hasSubChars, Bool.or_eq_false_iff] at h'
    rw [replaceFuel, if_neg, replaceFuel_no_occ fuel xs h'.2]
    rintro ⟨-, hsw⟩
    rw [h'.1] at hsw
    exact Bool.false_ne_true hsw

lemma replaceAll_key (pat rep rest : List Char) (hne : pat ≠ [])
    (hocc : hasSubChars pat rest = false) :
    replaceAllChars pat rep (pat ++ rest) = rep ++ rest := by
  obtain ⟨p, ps, rfl⟩ : ∃ p ps, pat = p :: ps := by
    cases pat with
    | nil => exact absurd rfl hne
    | cons p ps => exact ⟨p, ps, rfl⟩
  have hsw : startsWithChars ((p :: ps) ++ rest) (p :: ps) = true :=
    startsWith_append_self (p :: ps) rest
  have hdrop : (ps ++ rest).drop ((p :: ps).length - 1) = rest := by
    simp only [List.length_cons, Nat.add_sub_cancel]
    exact List.drop_left ps rest
  show replaceFuel (p :: ps) rep ((p :: ps) ++ rest).length ((p :: ps) ++ rest) = rep ++ rest
  rw [show ((p :: ps) ++ rest).length = ((ps ++ rest).length + 1) by simp]
  rw [show (p :: ps) ++ rest = p :: (ps ++ rest) from rfl]
  rw [replaceFuel, if_pos ⟨hne, by rw [show p :: (ps ++ rest) = (p :: ps) ++ rest from rfl]; exact hsw⟩]
  rw [hdrop, replaceFuel_no_occ _ rest hocc]

lemma dropWhile_len_le {α : Type} (p : α → Bool) : ∀ l : List α, (l.dropWhile p).length ≤ l.length
  | [] => Nat.le_refl 0
  | x :: xs => by
    rw [List.dropWhile_cons]
    by_cases hx : p x = true
    · rw [if_pos hx]
      exact Nat.le_succ_of_le (dropWhile_len_le p xs)
    · rw [if_neg hx]

lemma strip_noop (l : List Char)
    (h1 : ∀ x, l.head? = some x → pyWsChar x = false)
    (h2 : ∀ x, l.getLast? = some x → pyWsChar x = false) :
    stripChars l = l := by
  have hd : l.dropWhile pyWsChar = l := by
    cases l with
    | nil => rfl
    | cons x xs =>
      rw [List.dropWhile_cons, if_neg]
      simp [h1 x rfl]
  unfold stripChars
  rw [hd]
  have hd2 : l.reverse.dropWhile pyWsChar = l.reverse := by
    cases hr : l.reverse with
    | nil => rfl
    | cons y ys =>
      rw [List.dropWhile_cons, if_neg]
      have hy : l.getLast? = some y := by
        rw [← List.head?_reverse, hr]
        rfl
      simp [h2 y hy]
  rw [hd2, List.reverse_reverse]

lemma strip_eq_self_head_last {l : List Char} (h : stripChars l = l) :
    (∀ x, l.head? = some x → pyWsChar x = false) ∧
    (∀ x, l.getLast? = some x → pyWsChar x = false) := by
  have hkey : ∀ m : List Char, (stripChars m).length ≤ (m.dropWhile pyWsChar).length := by
    intro m
    unfold stripChars
    calc ((m.dropWhile pyWsChar).reverse.dropWhile pyWsChar).reverse.length
        = ((m.dropWhile pyWsChar).reverse.dropWhile pyWsChar).length :=
          List.length_reverse _
      _ ≤ (m.dropWhile pyWsChar).reverse.length := dropWhile_len_le _ _
      _ = (m.dropWhile pyWsChar).length := List.length_reverse _
  have hdw : l.dropWhile pyWsChar = l := by
    cases l with
    | nil => rfl
    | cons x xs =>
      rw [List.dropWhile_cons]
      by_cases hx : pyWsChar x = true
      · exfalso
        have h1 := hkey (x :: xs)
        rw [h, List.dropWhile_cons, if_pos hx] at h1
        have h2 := dropWhile_len_le pyWsChar xs
        simp only [List.length_cons] at h1
        omega
      · rw [if_neg hx]
  constructor
  · intro x hx
    cases l with
    | nil => simp at hx
    | cons a as =>
      have hax : a = x := by simpa using hx
      subst hax
      rw [List.dropWhile_cons] at hdw
      by_cases ha : pyWsChar a = true
      · exfalso
        rw [if_pos ha] at hdw
        have h2 := dropWhile_len_le pyWsChar as
        rw [hdw] at h2
        simp only [List.length_cons] at h2
        omega
      · simpa using ha
  · intro x hx
    by_contra hws
    have hws' : pyWsChar x = true := by simpa using hws
    obtain ⟨ys, hys⟩ : ∃ ys, l.reverse = x :: ys := by
      cases hr : l.reverse with
      | nil =>
        rw [← List.head?_reverse, hr] at hx
        simp at hx
      | cons a as =>
        have hax : a = x := by
          rw [← List.head?_reverse, hr] at hx
          simpa using hx
        exact ⟨as, by rw [hax]⟩
    have hlen : (stripChars l).length = l.length := by rw [h]
    have hlt : (stripChars l).length < l.length := by
      have hstrip : stripChars l = (List.dropWhile pyWsChar ys).reverse := by
        unfold stripChars
        rw [hdw, hys, List.dropWhile_cons, if_pos hws']
      have hrl : l.reverse.length = l.length := List.length_reverse _
      rw [hys] at hrl
      simp only [List.length_cons] at hrl
      have h2 := dropWhile_len_le pyWsChar ys
      rw [hstrip, List.length_reverse]
      omega
    omega

lemma splitOnChar_shape (c : Char) : ∀ l : List Char, ∃ y ys, splitOnChar c l = y :: ys
  | [] => ⟨[], [], rfl⟩
  | x :: xs => by
    obtain ⟨y, ys, h⟩ := splitOnChar_shape c xs
    simp only [splitOnChar, h]
    by_cases hx : x = c
    · exact ⟨[], y :: ys, by simp [hx]⟩
    · exact ⟨x :: y, ys, by simp [hx]⟩

lemma splitOnChar_no_sep {c : Char} : ∀ {l : List Char}, c ∉ l → splitOnChar c l = [l]
  | [], _ => rfl
  | x :: xs, h => by
    have h1 : ¬ x = c := fun he => h (by simp [he])
    have h2 : c ∉ xs := fun hc => h (by simp [hc])
    simp only [splitOnChar, splitOnChar_no_sep h2]
    simp [h1]

lemma splitOnChar_append_sep {c : Char} :
    ∀ {g : List Char} (r : List Char), c ∉ g →
      splitOnChar c (g ++ c :: r) = g :: splitOnChar c r
  | [], r, _ => by
    obtain ⟨y, ys, hy⟩ := splitOnChar_shape c r
    simp only [List.nil_append, splitOnChar, hy]
    simp
  | x :: g', r, h => by
    have h1 : ¬ x = c := fun he => h (by simp [he])
    have h2 : c ∉ g' := fun hc => h (by simp [hc])
    simp only [List.cons_append, splitOnChar, List.append_eq]
    rw [splitOnChar_append_sep r h2]
    simp [h1]

lemma splitOnChar_joinWith {c : Char} :
    ∀ (ls : List (List Char)), ls ≠ [] → (∀ l ∈ ls, c ∉ l) →
      splitOnChar c (joinWith c ls) = ls
  | [], h, _ => absurd rfl h
  | [x], _, h => by
    simp only [joinWith]
    exact splitOnChar_no_sep (h x (by simp))
  | x :: y :: ys, _, h => by
    simp only [joinWith]
    rw [splitOnChar_append_sep _ (h x (by simp)),
      splitOnChar_joinWith (y :: ys) (by simp) (fun l hl => h l (by simp [hl]))]

lemma joinWith_ne_nil {sep : Char} :
    ∀ {ls : List (List Char)}, ls ≠ [] → (∀ l ∈ ls, l ≠ []) → joinWith sep ls ≠ []
  | [], h, _ => absurd rfl h
  | [x], _, h => by simpa [joinWith] using h x (by simp)
  | x :: y :: ys, _, h => by
    simp only [joinWith]
    intro hcontra
    rcases List.append_eq_nil.1 hcontra with ⟨-, h2⟩
    exact List.cons_ne_nil _ _ h2

lemma joinWith_getLast? {sep : Char} :
    ∀ (ls : List (List Char)), (∀ l ∈ ls, l ≠ []) →
      ∀ x, (joinWith sep ls).getLast? = some x → ∃ l ∈ ls, l.getLast? = some x
  | [], _, x, hx => by simp [joinWith] at hx
  | [g], h, x, hx => ⟨g, by simp, by simpa [joinWith] using hx⟩
  | g :: g' :: gs, h, x, hx => by
    simp only [joinWith] at hx
    have hjne : joinWith sep (g' :: gs) ≠ [] :=
      joinWith_ne_nil (by simp) (fun l hl => h l (by simp [hl]))
    rw [List.getLast?_append_of_ne_nil _ (List.cons_ne_nil _ _),
      show (sep :: joinWith sep (g' :: gs)) = [sep] ++ joinWith sep (g' :: gs) from rfl,
      List.getLast?_append_of_ne_nil _ hjne] at hx
    obtain ⟨l, hl, hlx⟩ :=
      joinWith_getLast? (g' :: gs) (fun l hl => h l (by simp [hl])) x hx
    exact ⟨l, by simp [List.mem_cons] at hl ⊢; tauto, hlx⟩

lemma joinWith_head? {sep : Char} (g : List Char) (gs : List (List Char)) (h : g ≠ []) :
    (joinWith sep (g :: gs)).head? = g.head? := by
  cases gs with
  | nil => rfl
  | cons g' gs' =>
    simp only [joinWith]
    exact List.head?_append_of_ne_nil _ h

/-! ## Line-level lemmas for the preferences round trip -/

lemma stripChars_key_join (keyc : List Char) (gs : List String)
    (hkne : keyc ≠ [])
    (hk1 : ∀ x, keyc.head? = some x → pyWsChar x = false)
    (hk2 : ∀ x, keyc.getLast? = some x → pyWsChar x = false)
    (hg : ∀ g ∈ gs, g ≠ "" ∧ pyStrip g = g) :
    stripChars (keyc ++ joinWith ',' (gs.map String.data)) =
      keyc ++ joinWith ',' (gs.map String.data) := by
  apply strip_noop
  · intro x hx
    rw [List.head?_append_of_ne_nil _ hkne] at hx
    exact hk1 x hx
  · intro x hx
    by_cases hj : joinWith ',' (gs.map String.data) = []
    · rw [hj, List.append_nil] at hx
      exact hk2 x hx
    · rw [List.getLast?_append_of_ne_nil _ hj] at hx
      have hne : ∀ l ∈ gs.map String.data, l ≠ [] := by
        intro l hl
        obtain ⟨g, hgmem, rfl⟩ := List.mem_map.1 hl
        intro hnil
        exact (hg g hgmem).1 (String.ext hnil)
      obtain ⟨l, hl, hlx⟩ := joinWith_getLast? _ hne x hx
      obtain ⟨g, hgmem, rfl⟩ := List.mem_map.1 hl
      exact (strip_eq_self_head_last (congrArg String.data (hg g hgmem).2)).2 x hlx

lemma stripChars_join (gs : List String)
    (hg : ∀ g ∈ gs, g ≠ "" ∧ pyStrip g = g) :
    stripChars (joinWith ',' (gs.map String.data)) = joinWith ',' (gs.map String.data) := by
  cases gs with
  | nil => rfl
  | cons g gs' =>
    have hne : ∀ l ∈ (g :: gs').map String.data, l ≠ [] := by
      intro l hl
      obtain ⟨g', hgmem, rfl⟩ := List.mem_map.1 hl
      intro hnil
      exact (hg g' hgmem).1 (String.ext hnil)
    apply strip_noop
    · intro x hx
      rw [List.map_cons, joinWith_head? g.data (gs'.map String.data)
        (hne g.data (by simp))] at hx
      exact (strip_eq_self_head_last (congrArg String.data (hg g (by simp)).2)).1 x hx
    · intro x hx
      obtain ⟨l, hl, hlx⟩ := joinWith_getLast? _ hne x hx
      obtain ⟨g', hgmem, rfl⟩ := List.mem_map.1 hl
      exact (strip_eq_self_head_last (congrArg String.data (hg g' hgmem).2)).2 x hlx

lemma parse_items (gs : List String)
    (hc : ∀ g ∈ gs, g ≠ "" ∧ pyStrip g = g ∧ ',' ∉ g.data) :
    ((pySplit ',' (pyJoin ',' gs)).map pyStrip).filter (fun g => g ≠ "") = gs := by
  cases gs with
  | nil => decide
  | cons g gs' =>
    have hnosep : ∀ l ∈ (g :: gs').map String.data, ',' ∉ l := by
      intro l hl
      obtain ⟨g', hmem, rfl⟩ := List.mem_map.1 hl
      exact (hc g' hmem).2.2
    unfold pySplit pyJoin
    rw [show (String.mk (joinWith ',' ((g :: gs').map String.data))).data
        = joinWith ',' ((g :: gs').map String.data) from rfl]
    rw [splitOnChar_joinWith _ (by simp) hnosep]
    rw [List.map_map, List.map_map]
    have hmapid : ((g :: gs').map ((pyStrip ∘ fun l => (⟨l⟩ : String)) ∘ String.data))
        = (g :: gs').map id := by
      apply List.map_congr_left
      intro s hs
      show pyStrip s = s
      exact (hc s hs).2.1
    rw [hmapid, List.map_id]
    rw [List.filter_eq_self.2]
    intro a ha
    simp [(hc a ha).1]

lemma parse_genres_line (q : Preferences) (gs : List String)
    (hg : ∀ g ∈ gs, cleanItem "Genres:" g) :
    parsePrefLine q ⟨"Genres:".data ++ joinWith ',' (gs.map String.data)⟩ =
      { q with Genres := gs } := by
  have hitems : ∀ g ∈ gs, g ≠ "" ∧ pyStrip g = g :=
    fun g hgm => ⟨(hg g hgm).1, (hg g hgm).2.1⟩
  have hstrip : pyStrip ⟨"Genres:".data ++ joinWith ',' (gs.map String.data)⟩ =
      ⟨"Genres:".data ++ joinWith ',' (gs.map String.data)⟩ := by
    show (⟨stripChars ("Genres:".data ++ joinWith ',' (gs.map String.data))⟩ : String) = _
    congr 1
    refine stripChars_key_join _ gs (by decide) ?_ ?_ hitems
    · intro x hx; cases hx; decide
    · intro x hx; cases hx; decide
  have hsw : pyStartsWith ⟨"Genres:".data ++ joinWith ',' (gs.map String.data)⟩
      "Genres:" = true := startsWith_append_self _ _
  have hrep : pyReplace ⟨"Genres:".data ++ joinWith ',' (gs.map String.data)⟩
      "Genres:" "" = ⟨joinWith ',' (gs.map String.data)⟩ := by
    show (⟨replaceAllChars "Genres:".data "".data
      ("Genres:".data ++ joinWith ',' (gs.map String.data))⟩ : String) = _
    congr 1
    have hocc : hasSubChars "Genres:".data (joinWith ',' (gs.map String.data)) = false := by
      refine hasSub_joinWith (by decide) (by decide) _ ?_
      intro l hl
      obtain ⟨g, hm, rfl⟩ := List.mem_map.1 hl
      exact (hg g hm).2.2.2.2
    have := replaceAll_key "Genres:".data [] (joinWith ',' (gs.map String.data))
      (by decide) hocc
    simpa using this
  have hstrip2 : pyStrip ⟨joinWith ',' (gs.map String.data)⟩ =
      ⟨joinWith ',' (gs.map String.data)⟩ := by
    show (⟨stripChars (joinWith ',' (gs.map String.data))⟩ : String) = _
    congr 1
    exact stripChars_join gs hitems
  have hparse : ((pySplit ',' ⟨joinWith ',' (gs.map String.data)⟩).map pyStrip).filter
      (fun g => g ≠ "") = gs := by
    have := parse_items gs
      (fun g hgm => ⟨(hg g hgm).1, (hg g hgm).2.1, (hg g hgm).2.2.1⟩)
    simpa [pyJoin] using this
  simp only [parsePrefLine]
  rw [hstrip, if_pos hsw, hrep, hstrip2, hparse]

lemma parse_emotions_line (q : Preferences) (es : List String)
    (he : ∀ e ∈ es, cleanItem "Emotions:" e) :
    parsePrefLine q ⟨"Emotions:".data ++ joinWith ',' (es.map String.data)⟩ =
      { q with Emotions := es } := by
  have hitems : ∀ e ∈ es, e ≠ "" ∧ pyStrip e = e :=
    fun e hem => ⟨(he e hem).1, (he e hem).2.1⟩
  have hstrip : pyStrip ⟨"Emotions:".data ++ joinWith ',' (es.map String.data)⟩ =
      ⟨"Emotions:".data ++ joinWith ',' (es.map String.data)⟩ := by
    show (⟨stripChars ("Emotions:".data ++ joinWith ',' (es.map String.data))⟩ : String) = _
    congr 1
    refine stripChars_key_join _ es (by decide) ?_ ?_ hitems
    · intro x hx; cases hx; decide
    · intro x hx; cases hx; decide
  have hnotg : pyStartsWith ⟨"Emotions:".data ++ joinWith ',' (es.map String.data)⟩
      "Genres:" = false := by
    show startsWithChars ("Emotions:".data ++ joinWith ',' (es.map String.data))
      "Genres:".data = false
    rw [show "Emotions:".data ++ joinWith ',' (es.map String.data)
        = 'E' :: ("motions:".data ++ joinWith ',' (es.map String.data)) from rfl,
      show "Genres:".data = 'G' :: "enres:".data from rfl]
    exact startsWith_head_ne _ _ (by decide)
  have hsw : pyStartsWith ⟨"Emotions:".data ++ joinWith ',' (es.map String.data)⟩
      "Emotions:" = true := startsWith_append_self _ _
  have hrep : pyReplace ⟨"Emotions:".data ++ joinWith ',' (es.map String.data)⟩
      "Emotions:" "" = ⟨joinWith ',' (es.map String.data)⟩ := by
    show (⟨replaceAllChars "Emotions:".data "".data
      ("Emotions:".data ++ joinWith ',' (es.map String.data))⟩ : String) = _
    congr 1
    have hocc : hasSubChars "Emotions:".data (joinWith ',' (es.map String.data)) = false := by
      refine hasSub_joinWith (by decide) (by decide) _ ?_
      intro l hl
      obtain ⟨e, hm, rfl⟩ := List.mem_map.1 hl
      exact (he e hm).2.2.2.2
    have := replaceAll_key "Emotions:".data [] (joinWith ',' (es.map String.data))
      (by decide) hocc
    simpa using this
  have hstrip2 : pyStrip ⟨joinWith ',' (es.map String.data)⟩ =
      ⟨joinWith ',' (es.map String.data)⟩ := by
    show (⟨stripChars (joinWith ',' (es.map String.data))⟩ : String) = _
    congr 1
    exact stripChars_join es hitems
  have hparse : ((pySplit ',' ⟨joinWith ',' (es.map String.data)⟩).map pyStrip).filter
      (fun e => e ≠ "") = es := by
    have := parse_items es
      (fun e hem => ⟨(he e hem).1, (he e hem).2.1, (he e hem).2.2.1⟩)
    simpa [pyJoin] using this
  have hnotg' : ¬ (pyStartsWith ⟨"Emotions:".data ++ joinWith ',' (es.map String.data)⟩
      "Genres:" = true) := by
    rw [hnotg]; exact Bool.false_ne_true
  simp only [parsePrefLine]
  rw [hstrip, if_neg hnotg', if_pos hsw, hrep, hstrip2, hparse]

lemma parse_year_line (q : Preferences) (b : String) (hb : validBand b) :
    parsePrefLine q ⟨"Year:".data ++ b.data⟩ = { q with Year := b } := by
  rcases hb with hb | hb | hb | hb | hb | hb <;> subst hb <;> rfl

lemma parse_empty_line (q : Preferences) : parsePrefLine q "" = q := rfl

/-- C7 counterexample.  The genre `"xGenres:y"` is non-empty, comma-free and
has no surrounding whitespace (the claim's conditions), yet the round trip
mangles it: `read_preferences` removes every occurrence of the substring
`"Genres:"` from the line (Python `str.replace` replaces all occurrences),
so the stored genre comes back as `"xy"`. -/
theorem c7_counterexample :
    ("xGenres:y" : String) ≠ "" ∧
    pyStrip "xGenres:y" = "xGenres:y" ∧
    ',' ∉ ("xGenres:y" : String).data ∧
    (["xGenres:y"] : List String).length ≤ 3 ∧
    validBand "new" ∧
    read_preferences (write_preferences ⟨["xGenres:y"], [], "new"⟩) = ⟨["xy"], [], "new"⟩ ∧
    read_preferences (write_preferences ⟨["xGenres:y"], [], "new"⟩) ≠
      ⟨["xGenres:y"], [], "new"⟩ := by
  refine ⟨by decide, by decide, by decide, by decide, by decide, by decide, by decide⟩

/-- C7 (amended).  `savePreferences(p)` followed by `loadPreferences()`
reproduces `p` exactly for every `p` with at most 3 genres, at most 3
emotions and a valid band string, whose genre and emotion entries are
non-empty, comma-free, newline-free strings without surrounding whitespace
that moreover contain no occurrence of their line's key (`"Genres:"` resp.
`"Emotions:"` — the parser's replace-all would delete such occurrences). -/
theorem c7_preferences_round_trip (p : Preferences)
    (hgl : p.Genres.length ≤ 3) (hel : p.Emotions.length ≤ 3)
    (hg : ∀ g ∈ p.Genres, cleanItem "Genres:" g)
    (he : ∀ e ∈ p.Emotions, cleanItem "Emotions:" e)
    (hb : validBand p.Year) :
    read_preferences (write_preferences p) = p := by
  obtain ⟨G, E, Y⟩ := p
  have hfile : (write_preferences ⟨G, E, Y⟩).data =
      ("Genres:".data ++ joinWith ',' (G.map String.data)) ++ '\n' ::
      (("Emotions:".data ++ joinWith ',' (E.map String.data)) ++ '\n' ::
      (("Year:".data ++ Y.data) ++ '\n' :: [])) := by
    simp only [write_preferences, String.data_append, pyJoin]
    simp [List.append_assoc]
  have hl1nn : '\n' ∉ "Genres:".data ++ joinWith ',' (G.map String.data) := by
    intro hmem
    rcases List.mem_append.1 hmem with h | h
    · revert h; decide
    · exact mem_joinWith (by decide) _ (fun l hl => by
        obtain ⟨g, hm, rfl⟩ := List.mem_map.1 hl
        exact (hg g hm).2.2.2.1) h
  have hl2nn : '\n' ∉ "Emotions:".data ++ joinWith ',' (E.map String.data) := by
    intro hmem
    rcases List.mem_append.1 hmem with h | h
    · revert h; decide
    · exact mem_joinWith (by decide) _ (fun l hl => by
        obtain ⟨e, hm, rfl⟩ := List.mem_map.1 hl
        exact (he e hm).2.2.2.1) h
  have hl3nn : '\n' ∉ "Year:".data ++ Y.data := by
    intro hmem
    rcases List.mem_append.1 hmem with h | h
    · revert h; decide
    · rcases hb with hb | hb | hb | hb | hb | hb <;> subst hb <;> revert h <;> decide
  have hsplit : pySplit '\n' (write_preferences ⟨G, E, Y⟩) =
      [⟨"Genres:".data ++ joinWith ',' (G.map String.data)⟩,
       ⟨"Emotions:".data ++ joinWith ',' (E.map String.data)⟩,
       ⟨"Year:".data ++ Y.data⟩, ""] := by
    unfold pySplit
    rw [hfile, splitOnChar_append_sep _ hl1nn, splitOnChar_append_sep _ hl2nn,
      splitOnChar_append_sep _ hl3nn]
    rfl
  show read_preferences (write_preferences ⟨G, E, Y⟩) = _
  unfold read_preferences
  rw [hsplit]
  simp only [List.foldl_cons, List.foldl_nil]
  rw [parse_genres_line _ G hg, parse_emotions_line _ E he, parse_year_line _ Y hb,
    parse_empty_line]

/-- Witness for C7: a full preferences record with two genres, two emotions
and the band `"very new"` survives the round trip. -/
theorem c7_preferences_round_trip_witness :
    read_preferences (write_preferences ⟨["Action", "Comedy"], ["joy", "anger"], "very new"⟩) =
      ⟨["Action", "Comedy"], ["joy", "anger"], "very new"⟩ :=
  c7_preferences_round_trip ⟨["Action", "Comedy"], ["joy", "anger"], "very new"⟩
    (by decide) (by decide) (by decide) (by decide) (by decide)

/-! ## Dict and stable-sort lemmas for the aggregation claims -/

lemma pyDictGet_addWeight_same {β : Type} [Add β] (k : String) (w : β) :
    ∀ d : List (String × β),
      pyDictGet k (dictAddWeight k w d) =
        some (match pyDictGet k d with | some v => v + w | none => w)
  | [] => by simp [dictAddWeight, pyDictGet]
  | (k', v) :: rest => by
    by_cases hk : k' = k
    · subst hk
      simp [dictAddWeight, pyDictGet]
    · simp only [dictAddWeight, if_neg hk, pyDictGet]
      exact pyDictGet_addWeight_same k w rest

lemma pyDictGet_addWeight_other {β : Type} [Add β] {k k' : String} (h : k' ≠ k) (w : β) :
    ∀ d : List (String × β), pyDictGet k' (dictAddWeight k w d) = pyDictGet k' d
  | [] => by
    simp only [dictAddWeight, pyDictGet]
    rw [if_neg (fun he => h he.symm)]
  | (a, v) :: rest => by
    by_cases ha : a = k
    · subst ha
      simp only [dictAddWeight, if_pos rfl, pyDictGet]
      rw [if_neg (fun he => h he.symm), if_neg (fun he => h he.symm)]
    · simp only [dictAddWeight, if_neg ha, pyDictGet]
      by_cases hak : a = k'
      · rw [if_pos hak, if_pos hak]
      · rw [if_neg hak, if_neg hak, pyDictGet_addWeight_other h w rest]

lemma tally_get_aux {β : Type} [Add β] :
    ∀ (pairs : List (String × β)) (acc : List (String × β)) (k : String),
      pyDictGet k (pairs.foldl (fun d p => dictAddWeight p.1 p.2 d) acc) =
        match pyDictGet k acc with
        | some v => some ((filterWeights k pairs).foldl (· + ·) v)
        | none =>
          match filterWeights k pairs with
          | [] => none
          | w :: ws => some (ws.foldl (· + ·) w)
  | [], acc, k => by
    simp only [List.foldl_nil, filterWeights, List.filter_nil, List.map_nil, List.foldl_nil]
    cases pyDictGet k acc <;> rfl
  | p :: rest, acc, k => by
    rw [List.foldl_cons, tally_get_aux rest (dictAddWeight p.1 p.2 acc) k]
    by_cases hpk : p.1 = k
    · have hfw : filterWeights k (p :: rest) = p.2 :: filterWeights k rest := by
        simp [filterWeights, List.filter_cons, hpk]
      rw [hfw]
      subst hpk
      rw [pyDictGet_addWeight_same p.1 p.2 acc]
      cases hacc : pyDictGet p.1 acc <;> simp [List.foldl_cons]
    · have hfw : filterWeights k (p :: rest) = filterWeights k rest := by
        simp [filterWeights, List.filter_cons, hpk]
      rw [hfw, pyDictGet_addWeight_other (fun he => hpk he.symm) p.2 acc]

lemma pyDictTally_get {β : Type} [Add β] (pairs : List (String × β)) (k : String) :
    pyDictGet k (pyDictTally pairs) =
      match filterWeights k pairs with
      | [] => none
      | w :: ws => some (ws.foldl (· + ·) w) := by
  rw [pyDictTally, tally_get_aux pairs [] k]
  rfl

lemma dictAddWeight_keys {β : Type} [Add β] (k : String) (w : β) :
    ∀ d : List (String × β),
      (dictAddWeight k w d).map Prod.fst =
        if k ∈ d.map Prod.fst then d.map Prod.fst else d.map Prod.fst ++ [k]
  | [] => by simp [dictAddWeight]
  | (a, v) :: rest => by
    by_cases ha : a = k
    · subst ha
      simp [dictAddWeight]
    · simp only [dictAddWeight, if_neg ha, List.map_cons, List.mem_cons]
      rw [dictAddWeight_keys k w rest]
      by_cases hk : k ∈ rest.map Prod.fst
      · rw [if_pos hk, if_pos (Or.inr hk)]
      · have hna : ¬(k = a ∨ k ∈ rest.map Prod.fst) := by
          rintro (h | h)
          · exact ha h.symm
          · exact hk h
        rw [if_neg hk, if_neg hna]
        simp

lemma tally_keys_aux {β : Type} [Add β] :
    ∀ (pairs : List (String × β)) (acc : List (String × β)),
      (pairs.foldl (fun d p => dictAddWeight p.1 p.2 d) acc).map Prod.fst =
        acc.map Prod.fst ++ dedupAux (acc.map Prod.fst) (pairs.map Prod.fst)
  | [], acc => by simp [dedupAux]
  | p :: rest, acc => by
    rw [List.foldl_cons, tally_keys_aux rest (dictAddWeight p.1 p.2 acc),
      dictAddWeight_keys p.1 p.2 acc]
    simp only [List.map_cons, dedupAux]
    by_cases hk : p.1 ∈ acc.map Prod.fst
    · rw [if_pos hk, if_pos hk]
    · rw [if_neg hk, if_neg hk]
      simp [List.append_assoc]

lemma pyDictTally_keys {β : Type} [Add β] (pairs : List (String × β)) :
    (pyDictTally pairs).map Prod.fst = dedupFirstSeen (pairs.map Prod.fst) := by
  rw [pyDictTally, tally_keys_aux pairs []]
  rfl

lemma dedupAux_nodup_notin :
    ∀ (ks seen : List String),
      (dedupAux seen ks).Nodup ∧ ∀ x ∈ dedupAux seen ks, x ∉ seen
  | [], seen => ⟨List.nodup_nil, by simp [dedupAux]⟩
  | k :: ks, seen => by
    by_cases hk : k ∈ seen
    · rw [show dedupAux seen (k :: ks) = dedupAux seen ks by simp [dedupAux, hk]]
      exact dedupAux_nodup_notin ks seen
    · rw [show dedupAux seen (k :: ks) = k :: dedupAux (seen ++ [k]) ks by
        simp [dedupAux, hk]]
      obtain ⟨hnd, hnotin⟩ := dedupAux_nodup_notin ks (seen ++ [k])
      refine ⟨List.nodup_cons.2 ⟨?_, hnd⟩, ?_⟩
      · intro hmem
        exact hnotin k hmem (by simp)
      · intro x hx
        rcases List.mem_cons.1 hx with rfl | hx'
        · exact hk
        · intro hxs
          exact hnotin x hx' (by simp [hxs])

lemma dedupFirstSeen_nodup (ks : List String) : (dedupFirstSeen ks).Nodup :=
  (dedupAux_nodup_notin ks []).1

lemma idxOfStr_getElem :
    ∀ (ks : List String), ks.Nodup → ∀ (i : Nat) (h : i < ks.length),
      idxOfStr ks[i] ks = i
  | [], _, i, h => by simp at h
  | b :: ks', hnd, 0, h => by simp [idxOfStr]
  | b :: ks', hnd, i + 1, h => by
    have h' : i < ks'.length := by simpa using h
    have hne : b ≠ ks'[i] := by
      intro he
      exact (List.nodup_cons.1 hnd).1 (he ▸ List.getElem_mem h')
    show idxOfStr (ks'[i]) (b :: ks') = i + 1
    simp only [idxOfStr, if_neg hne]
    rw [idxOfStr_getElem ks' (List.nodup_cons.1 hnd).2 i h']

lemma insDesc_perm {β : Type} [LinearOrder β] (x : String × β) :
    ∀ l : List (String × β), (insDesc x l).Perm (x :: l)
  | [] => List.Perm.refl _
  | y :: ys => by
    by_cases h : y.2 ≤ x.2
    · rw [show insDesc x (y :: ys) = x :: y :: ys by simp [insDesc, h]]
    · rw [show insDesc x (y :: ys) = y :: insDesc x ys by simp [insDesc, h]]
      exact ((insDesc_perm x ys).cons y).trans (List.Perm.swap x y ys)

lemma sortDesc_perm {β : Type} [LinearOrder β] :
    ∀ l : List (String × β), (sortDesc l).Perm l
  | [] => List.Perm.refl _
  | x :: xs => by
    rw [show sortDesc (x :: xs) = insDesc x (sortDesc xs) from rfl]
    exact (insDesc_perm x (sortDesc xs)).trans ((sortDesc_perm xs).cons x)

lemma insDesc_pairwise {β : Type} [LinearOrder β] (R : String × β → String × β → Prop)
    (x : String × β) :
    ∀ l : List (String × β),
      List.Pairwise (fun a b => b.2 < a.2 ∨ (a.2 = b.2 ∧ R a b)) l →
      (∀ y ∈ l, R x y) →
      List.Pairwise (fun a b => b.2 < a.2 ∨ (a.2 = b.2 ∧ R a b)) (insDesc x l)
  | [], _, _ => List.pairwise_singleton _ _
  | y :: ys, hl, hx => by
    by_cases h : y.2 ≤ x.2
    · rw [show insDesc x (y :: ys) = x :: y :: ys by simp [insDesc, h]]
      refine List.pairwise_cons.2 ⟨?_, hl⟩
      intro z hz
      have hz2 : z.2 ≤ x.2 := by
        rcases List.mem_cons.1 hz with rfl | hz'
        · exact h
        · rcases (List.pairwise_cons.1 hl).1 z hz' with hlt | ⟨heq, -⟩
          · exact le_of_lt (lt_of_lt_of_le hlt h)
          · exact heq ▸ h
      rcases lt_or_eq_of_le hz2 with hlt | heq
      · exact Or.inl hlt
      · exact Or.inr ⟨heq.symm, hx z hz⟩
    · rw [show insDesc x (y :: ys) = y :: insDesc x ys by simp [insDesc, h]]
      have hpc := List.pairwise_cons.1 hl
      refine List.pairwise_cons.2 ⟨?_, insDesc_pairwise R x ys hpc.2
        (fun z hz => hx z (List.mem_cons_of_mem _ hz))⟩
      intro z hz
      rcases List.mem_cons.1 ((insDesc_perm x ys).mem_iff.1 hz) with rfl | hz'
      · exact Or.inl (not_le.1 h)
      · exact hpc.1 z hz'

lemma sortDesc_pairwise {β : Type} [LinearOrder β] (R : String × β → String × β → Prop) :
    ∀ d : List (String × β), List.Pairwise R d →
      List.Pairwise (fun a b => b.2 < a.2 ∨ (a.2 = b.2 ∧ R a b)) (sortDesc d)
  | [], _ => List.Pairwise.nil
  | x :: xs, hd => by
    rw [show sortDesc (x :: xs) = insDesc x (sortDesc xs) from rfl]
    have hpc := List.pairwise_cons.1 hd
    refine insDesc_pairwise R x (sortDesc xs) (sortDesc_pairwise R xs hpc.2) ?_
    intro y hy
    exact hpc.1 y ((sortDesc_perm xs).mem_iff.1 hy)

lemma pairwise_idxOfStr {β : Type} (d : List (String × β))
    (hnd : (d.map Prod.fst).Nodup) :
    List.Pairwise (fun a b =>
      idxOfStr a.1 (d.map Prod.fst) < idxOfStr b.1 (d.map Prod.fst)) d := by
  rw [List.pairwise_iff_get]
  intro i j hij
  have hb : ∀ n : Fin d.length, (n : Nat) < (d.map Prod.fst).length := by
    intro n
    simp only [List.length_map]
    exact n.2
  have hmap : ∀ n : Fin d.length,
      (d.get n).1 = (d.map Prod.fst).get ⟨n.1, hb n⟩ := by
    intro n
    rw [List.get_eq_getElem, List.get_eq_getElem, List.getElem_map]
  have hidx : ∀ n : Fin d.length,
      idxOfStr ((d.map Prod.fst).get ⟨n.1, hb n⟩) (d.map Prod.fst) = n.1 := by
    intro n
    rw [List.get_eq_getElem]
    exact idxOfStr_getElem _ hnd n.1 (hb n)
  rw [hmap i, hmap j, hidx i, hidx j]
  exact hij

lemma filterWeights_map_one (k : String) :
    ∀ toks : List String,
      filterWeights k (toks.map fun g => (g, (1 : Nat))) =
        List.replicate (toks.countP fun t => t = k) 1
  | [] => rfl
  | t :: ts => by
    have ih := filterWeights_map_one k ts
    simp only [filterWeights] at ih
    by_cases ht : t = k
    · subst ht
      simp [filterWeights, List.filter_cons, List.countP_cons, ih, List.replicate_succ]
    · simp [filterWeights, List.filter_cons, List.countP_cons, ht, ih]

lemma foldl_add_replicate_one :
    ∀ (n w : Nat), (List.replicate n (1 : Nat)).foldl (· + ·) w = w + n
  | 0, w => by simp
  | n + 1, w => by
    rw [List.replicate_succ, List.foldl_cons, foldl_add_replicate_one n (w + 1)]
    omega

/-- C8.  The genre aggregation of the preference deriver tallies the
occurrence count of each (stripped) genre string across the session's
entries into an insertion-ordered dict whose keys are the genres in
first-seen order and whose values are the occurrence counts; the dict items
are stably sorted by count descending — so ties in count keep first-seen
order, captured by the strict lexicographic pairwise clause — and the top 3
genre names are selected. -/
theorem c8_genre_aggregation (movies : List SessionMovie) :
    deriveGenres movies = ((sortDesc (genreTally movies)).take 3).map Prod.fst ∧
    (genreTally movies).map Prod.fst = dedupFirstSeen (renewGenreTokens movies) ∧
    (∀ k : String,
      pyDictGet k (genreTally movies) =
        if (renewGenreTokens movies).countP (fun t => t = k) = 0 then none
        else some ((renewGenreTokens movies).countP fun t => t = k)) ∧
    (sortDesc (genreTally movies)).Perm (genreTally movies) ∧
    List.Pairwise (fun a b => b.2 < a.2 ∨ (a.2 = b.2 ∧
      idxOfStr a.1 (dedupFirstSeen (renewGenreTokens movies)) <
      idxOfStr b.1 (dedupFirstSeen (renewGenreTokens movies))))
      (sortDesc (genreTally movies)) := by
  have hkeys : (genreTally movies).map Prod.fst = dedupFirstSeen (renewGenreTokens movies) := by
    rw [genreTally, pyDictTally_keys]
    congr 1
    rw [List.map_map]
    rw [show (Prod.fst ∘ fun g : String => (g, (1 : Nat))) = id from rfl, List.map_id]
  refine ⟨rfl, hkeys, ?_, sortDesc_perm _, ?_⟩
  · intro k
    rw [genreTally, pyDictTally_get, filterWeights_map_one]
    by_cases h : (renewGenreTokens movies).countP (fun t => t = k) = 0
    · simp [h]
    · obtain ⟨m, hm⟩ : ∃ m, (renewGenreTokens movies).countP (fun t => t = k) = m + 1 :=
        ⟨(renewGenreTokens movies).countP (fun t => t = k) - 1, by omega⟩
      rw [hm, List.replicate_succ, if_neg (by omega)]
      simp only [foldl_add_replicate_one]
      rw [Nat.add_comm]
  · have hnd : ((genreTally movies).map Prod.fst).Nodup := by
      rw [hkeys]
      exact dedupFirstSeen_nodup _
    have hthis := sortDesc_pairwise
      (fun a b => idxOfStr a.1 ((genreTally movies).map Prod.fst) <
        idxOfStr b.1 ((genreTally movies).map Prod.fst))
      (genreTally movies) (pairwise_idxOfStr (genreTally movies) hnd)
    rw [hkeys] at hthis
    exact hthis

/-- Witness for C8: two session movies sharing genres; `Drama` and `Action`
both occur twice (`Drama` first seen first), `Comedy` once. -/
theorem c8_genre_aggregation_witness :
    deriveGenres [⟨"a", none, "Drama,Action", "r"⟩, ⟨"b", none, "Action,Drama,Comedy", "r"⟩]
      = ["Drama", "Action", "Comedy"] ∧
    pyDictGet "Drama"
      (genreTally [⟨"a", none, "Drama,Action", "r"⟩, ⟨"b", none, "Action,Drama,Comedy", "r"⟩])
      = some 2 := by
  have h := c8_genre_aggregation
    [⟨"a", none, "Drama,Action", "r"⟩, ⟨"b", none, "Action,Drama,Comedy", "r"⟩]
  constructor
  · rw [h.1]
    decide
  · rw [h.2.2.1 "Drama"]
    decide

lemma analyze_emotions_empty (classify : String → List (String × ℚ)) (text : String)
    (h : pyStrip text = "") : analyze_emotions classify text = [] := by
  rw [analyze_emotions, if_pos h]

lemma analyze_emotions_sorted (classify : String → List (String × ℚ)) (text : String)
    (h : pyStrip text ≠ "") :
    analyze_emotions classify text =
      ((sortDesc (emotionTally classify text)).take 3).map Prod.fst := by
  simp only [analyze_emotions, if_neg h, emotionTally, pyDictTally, List.foldl_map]

/-- C9.  For every input text and classifier score list, `analyze_emotions`
returns at most 3 pairwise-distinct (lower-cased) emotion labels; a
whitespace-only input yields `[]`; otherwise the result is the top 3 of the
per-label aggregation dict stably sorted by aggregate score descending —
keys in first-occurrence order of the classifier's native output, values the
sums of that label's scores, ties in aggregate broken by first occurrence
(the strict lexicographic pairwise clause). -/
theorem c9_emotion_ranking (classify : String → List (String × ℚ)) (text : String) :
    (pyStrip text = "" → analyze_emotions classify text = []) ∧
    (analyze_emotions classify text).length ≤ 3 ∧
    (analyze_emotions classify text).Nodup ∧
    (pyStrip text ≠ "" →
      analyze_emotions classify text =
        ((sortDesc (emotionTally classify text)).take 3).map Prod.fst ∧
      (emotionTally classify text).map Prod.fst =
        dedupFirstSeen ((classify text).map fun p => pyLower p.1) ∧
      (∀ k : String,
        pyDictGet k (emotionTally classify text) =
          match filterWeights k ((classify text).map fun p => (pyLower p.1, p.2)) with
          | [] => none
          | w :: ws => some ((w :: ws).sum)) ∧
      (sortDesc (emotionTally classify text)).Perm (emotionTally classify text) ∧
      List.Pairwise (fun a b => b.2 < a.2 ∨ (a.2 = b.2 ∧
        idxOfStr a.1 (dedupFirstSeen ((classify text).map fun p => pyLower p.1)) <
        idxOfStr b.1 (dedupFirstSeen ((classify text).map fun p => pyLower p.1))))
        (sortDesc (emotionTally classify text))) := by
  have hkeys : (emotionTally classify text).map Prod.fst =
      dedupFirstSeen ((classify text).map fun p => pyLower p.1) := by
    rw [emotionTally, pyDictTally_keys]
    congr 1
    rw [List.map_map]
    rfl
  have hnd : ((emotionTally classify text).map Prod.fst).Nodup := by
    rw [hkeys]
    exact dedupFirstSeen_nodup _
  have hnodup : (analyze_emotions classify text).Nodup := by
    by_cases h : pyStrip text = ""
    · rw [analyze_emotions_empty classify text h]
      exact List.nodup_nil
    · rw [analyze_emotions_sorted classify text h, List.map_take]
      refine List.Nodup.sublist (List.take_sublist _ _) ?_
      exact ((sortDesc_perm (emotionTally classify text)).map Prod.fst).nodup_iff.2 hnd
  have hlen : (analyze_emotions classify text).length ≤ 3 := by
    by_cases h : pyStrip text = ""
    · rw [analyze_emotions_empty classify text h]
      exact Nat.zero_le 3
    · rw [analyze_emotions_sorted classify text h, List.map_take]
      exact List.length_take_le _ _
  refine ⟨analyze_emotions_empty classify text, hlen, hnodup, ?_⟩
  intro h
  refine ⟨analyze_emotions_sorted classify text h, hkeys, ?_, sortDesc_perm _, ?_⟩
  · intro k
    rw [emotionTally, pyDictTally_get]
    cases hfw : filterWeights k ((classify text).map fun p => (pyLower p.1, p.2)) with
    | nil => rfl
    | cons w ws =>
      show some (ws.foldl (· + ·) w) = some ((w :: ws).sum)
      rw [List.sum_eq_foldl, List.foldl_cons, zero_add]
  · have hthis := sortDesc_pairwise
      (fun a b => idxOfStr a.1 ((emotionTally classify text).map Prod.fst) <
        idxOfStr b.1 ((emotionTally classify text).map Prod.fst))
      (emotionTally classify text) (pairwise_idxOfStr (emotionTally classify text) hnd)
    rw [hkeys] at hthis
    exact hthis

/-- Witness for C9: four distinct labels with scores 2, 3, 1, 2; `fear` wins,
the tie between `joy` and `anger` is broken by first occurrence, `calm` is
cut by the top-3 truncation; a whitespace-only text yields `[]`. -/
theorem c9_emotion_ranking_witness :
    analyze_emotions (fun _ => [("Joy", 2), ("fear", 3), ("calm", 1), ("anger", 2)]) "great"
      = ["fear", "joy", "anger"] ∧
    analyze_emotions (fun _ => [("Joy", 1)]) "  " = [] := by
  constructor
  · have h := (c9_emotion_ranking
      (fun _ => [("Joy", 2), ("fear", 3), ("calm", 1), ("anger", 2)]) "great").2.2.2
      (by decide)
    rw [h.1]
    decide
  · exact (c9_emotion_ranking (fun _ => [("Joy", 1)]) "  ").1 (by decide)
